import Mathlib

/-!
Shallow embedding of the `rayts` raycaster.

Definitions are translated from the TypeScript sources:
* `src/src/cast.ts` — the column renderer `render` and the (stubbed) ray caster `cast`;
* the drawing module (imported as `draw`) — colors, pixel/column/line drawing and
  Bresenham's line algorithm;
* `src/src/main.ts` is the host animation loop and is not modelled (it only calls the
  functions above).

JavaScript numbers are modelled as follows: general arithmetic and trigonometry use
`Real`; color-channel arithmetic, which only uses `ToInt32` truncation and bit masking,
uses `Rat` so that it stays executable; the single place where the code can divide by
zero (`64 / corrected` in `render`) is modelled in `EReal`, since in JavaScript
`64 / 0` is `+Infinity`.

Stateful drawing (writes into the framebuffer) is modelled by traces: the line
rasterizer returns the list of integer points it plots, and the renderer returns the
list of drawing calls (`Event`) it issues.
-/

namespace Rayts

/-! Colors (draw module). -/

/-- Truncation toward zero, as applied by the JavaScript `ToInt32` conversion that the
bitwise `&` operator performs on its operands. -/
def jsTrunc (q : ℚ) : ℤ := if 0 ≤ q then ⌊q⌋ else ⌈q⌉

/-- The JavaScript expression `x & 0xff`: `ToInt32` truncates toward zero and wraps
modulo 2^32 into two's complement; masking the low 8 bits of that value is the
nonnegative remainder of the truncation modulo 256 (because 256 divides 2^32). -/
def jsAnd255 (q : ℚ) : ℤ := (jsTrunc q).emod 256

/-- Color (draw module): red, green, blue and alpha channel values. The source stores
the results of `x & 0xff`, hence integer channels. -/
structure Color where
  r : ℤ
  g : ℤ
  b : ℤ
  a : ℤ
deriving DecidableEq

/-- Embedding of `colorRGBA` (draw module): `[r & 0xff, g & 0xff, b & 0xff, a & 0xff]`.
The source gives `a` the default value 255; the embedding passes it explicitly. -/
def colorRGBA (r g b a : ℚ) : Color :=
  ⟨jsAnd255 r, jsAnd255 g, jsAnd255 b, jsAnd255 a⟩

/-- Embedding of `ColorBlack` (draw module). -/
def ColorBlack : Color := colorRGBA 0 0 0 255

/-- Embedding of `ColorDefault` (draw module). -/
def ColorDefault : Color := ColorBlack

/-- Membership in the character class `[0-9a-f]` under the case-insensitive flag, as
used by the regular expression of `colorHex`. -/
def isHexDigit (c : Char) : Bool :=
  ( '0' ≤ c && c ≤ '9' ) || ( 'a' ≤ c && c ≤ 'f' ) || ( 'A' ≤ c && c ≤ 'F' )

/-- The anchored regular-expression match of `colorHex` against `^#([0-9a-f]{6})$`
(case-insensitive), returning the captured group of six digits on success. -/
def hexMatch : List Char → Option (List Char)
  | '#' :: rest => if rest.length = 6 ∧ rest.all isHexDigit then some rest else none
  | _ => none

/-- Numeric value of one hexadecimal digit, as used by `parseInt(-, 16)` on digits
accepted by `isHexDigit`. -/
def hexDigitVal (c : Char) : ℕ :=
  if '0' ≤ c ∧ c ≤ '9' then c.toNat - '0'.toNat
  else if 'a' ≤ c ∧ c ≤ 'f' then c.toNat - 'a'.toNat + 10
  else c.toNat - 'A'.toNat + 10

/-- The call `parseInt(digits, 16)` on a string of hexadecimal digits. -/
def parseHex (cs : List Char) : ℕ := cs.foldl (fun acc c => 16 * acc + hexDigitVal c) 0

/-- Embedding of `colorHex` (draw module): parse a `"#rrggbb"` code and call
`colorRGBA` on the three extracted bytes, throwing `"invalid hex value"` when the
regular expression does not match. The thrown string is modelled with `Except.error`.
The source gives `a` the default value 255; the embedding passes it explicitly. -/
def colorHex (hex : String) (a : ℚ) : Except String Color :=
  match hexMatch hex.data with
  | none => Except.error "invalid hex value"
  | some digits =>
      Except.ok (colorRGBA ((Nat.land (parseHex digits) 0xff0000 >>> 16 : ℕ) : ℚ)
        ((Nat.land (parseHex digits) 0xff00 >>> 8 : ℕ) : ℚ)
        ((Nat.land (parseHex digits) 0xff : ℕ) : ℚ) a)

/-- Whether an `Except` value is a success. -/
def isOk : Except String Color → Bool
  | Except.ok _ => true
  | Except.error _ => false

/-- All four channels of a color lie in [0, 255] (the channels are integers by the
type of `Color`). -/
def channelsInRange (c : Color) : Prop :=
  0 ≤ c.r ∧ c.r ≤ 255 ∧ 0 ≤ c.g ∧ c.g ≤ 255 ∧ 0 ≤ c.b ∧ c.b ≤ 255 ∧ 0 ≤ c.a ∧ c.a ≤ 255

/-! Bresenham line rasterizer (draw module). -/

/-- One iteration of the `while (du--)` loop of `bresenham` (draw module), run `n`
times: when the error `e` is nonnegative, step the minor axis `v` by `sv` and add
`2*dv - 2*du` to `e`, otherwise add `2*dv`; always step the major axis `u` by `su`;
plot `(u, v)` when the major axis is the first (x) axis and `(v, u)` otherwise.
Returns the plotted points in order. -/
def bresLoop (majorX : Bool) (su sv dv2 dv2mdu2 : ℤ) :
    ℕ → ℤ → ℤ → ℤ → List (ℤ × ℤ)
  | 0, _, _, _ => []
  | n + 1, u, v, e =>
    (if majorX then (u + su, if 0 ≤ e then v + sv else v)
     else ((if 0 ≤ e then v + sv else v), u + su)) ::
      bresLoop majorX su sv dv2 dv2mdu2 n (u + su) (if 0 ≤ e then v + sv else v)
        (if 0 ≤ e then e + dv2mdu2 else e + dv2)

/-- Body of `bresenham` (draw module) after the endpoint swap: with `dx = b.1 - a.1`
(inlined below, negated in the second branch exactly as the source mutates it) and
`dy = b.2 - a.2`, classify the four octant cases, plot the first endpoint, and run the
error loop `du` times starting from `e = 2*dv - du`. -/
def bresenhamCore (a b : ℤ × ℤ) : List (ℤ × ℤ) :=
  if b.1 - a.1 > 0 then
    if b.1 - a.1 > b.2 - a.2 then
      a :: bresLoop true 1 1 (2 * (b.2 - a.2)) (2 * (b.2 - a.2) - 2 * (b.1 - a.1))
        (b.1 - a.1).toNat a.1 a.2 (2 * (b.2 - a.2) - (b.1 - a.1))
    else
      a :: bresLoop false 1 1 (2 * (b.1 - a.1)) (2 * (b.1 - a.1) - 2 * (b.2 - a.2))
        (b.2 - a.2).toNat a.2 a.1 (2 * (b.1 - a.1) - (b.2 - a.2))
  else
    if -(b.1 - a.1) > b.2 - a.2 then
      a :: bresLoop true (-1) 1 (2 * (b.2 - a.2)) (2 * (b.2 - a.2) - 2 * (-(b.1 - a.1)))
        (-(b.1 - a.1)).toNat a.1 a.2 (2 * (b.2 - a.2) - (-(b.1 - a.1)))
    else
      a :: bresLoop false 1 (-1) (2 * (-(b.1 - a.1))) (2 * (-(b.1 - a.1)) - 2 * (b.2 - a.2))
        (b.2 - a.2).toNat a.2 a.1 (2 * (-(b.1 - a.1)) - (b.2 - a.2))

/-- Embedding of `bresenham` (draw module) on integer endpoints: swap the endpoints so
that the second coordinate does not decrease, then run the octant-normalized loop.
Returns the list of plotted points in order. -/
def bresenham (p q : ℤ × ℤ) : List (ℤ × ℤ) :=
  if p.2 > q.2 then bresenhamCore q p else bresenhamCore p q

/-! Line drawing entry points (draw module). -/

/-- Truncation toward zero of a JavaScript number, the `| 0` coercion that `bresenham`
applies to its endpoints. -/
noncomputable def jsTruncR (x : ℝ) : ℤ := if 0 ≤ x then ⌊x⌋ else ⌈x⌉

/-- The two-point form of `line` (draw module): truncate both endpoints with `| 0` and
run `bresenham`. Returns the list of plotted points. -/
noncomputable def linePts (a b : ℝ × ℝ) : List (ℤ × ℤ) :=
  bresenham (jsTruncR a.1, jsTruncR a.2) (jsTruncR b.1, jsTruncR b.2)

/-- The origin/angle/length form of `line` (draw module): the endpoint is
`[origin[0] + Math.floor(length * Math.cos(angle)), origin[1] + Math.floor(length * Math.sin(angle))]`
and the two-point form is then used. -/
noncomputable def lineAnglePts (origin : ℝ × ℝ) (angle len : ℝ) : List (ℤ × ℤ) :=
  linePts origin
    (origin.1 + ((⌊len * Real.cos angle⌋ : ℤ) : ℝ), origin.2 + ((⌊len * Real.sin angle⌋ : ℤ) : ℝ))

/-! Ray caster and column renderer (src/src/cast.ts). -/

/-- Position (src/src/cast.ts): world-space coordinates. -/
structure Position where
  x : ℝ
  y : ℝ

/-- Embedding of `cast` (src/src/cast.ts:60-80). The grid traversal of the body is a
series of TODO comments; the function computes unused local trigonometry and tile
values and unconditionally returns `Infinity`, modelled as `none` ("no hit within
range"). It takes no grid argument in the source. -/
def cast (_pos : Position) (_angle : ℝ) : Option ℝ := none

/-- A drawing call issued by `render` (src/src/cast.ts): either a wall column
(`draw.column(fbuf, column, height)` at line 44) or the debug ray line
(`draw.line(fbuf, [100, 100], angle, len, draw.colorHex("#aaaaff"))` at line 49),
recorded with its varying data (the anchor point and color of the debug line are
constant). -/
inductive Event where
  | col (x : ℕ) (hgt : EReal)
  | debug (angle : ℝ) (len : ℝ)

/-- Whether an event is a wall-column drawing call. -/
def Event.isCol : Event → Bool
  | .col _ _ => true
  | .debug _ _ => false

/-- The height expression `64 / corrected * projd` of `render` (src/src/cast.ts:43) as
an extended real: JavaScript division of the positive constant 64 by `corrected = +0`
yields `+Infinity`, and multiplying by the plane distance `projd` (which is positive
in `render` whenever the framebuffer is nonempty) keeps it `+Infinity`. -/
noncomputable def jsHeight (corrected projd : ℝ) : EReal :=
  if corrected = 0 then ⊤ else ((64 / corrected * projd : ℝ) : EReal)

/-- The clamp performed by `column` (draw module):
`if (height > fbuf.height) { height = fbuf.height; }`. -/
noncomputable def columnClamp (fbh : ℕ) (hgt : EReal) : EReal :=
  if ((fbh : ℝ) : EReal) < hgt then ((fbh : ℝ) : EReal) else hgt

/-- The per-column loop of `render` (src/src/cast.ts:39-52), parameterized by the ray
caster `castFn` (the source calls the module-level `cast`, whose traversal is a stub)
and by a flag `dbg` selecting whether the debug ray line of line 49 is drawn: cast a
ray for the current column `c`, draw the wall column when the distance is finite
(`some`), draw the debug line with length 100 for an infinite distance and
`distance / 10` otherwise, then advance the angle by `delta` and continue with the
remaining `fuel` columns. -/
noncomputable def renderColumns (castFn : Position → ℝ → Option ℝ) (dbg : Bool)
    (pos : Position) (dir projd delta : ℝ) : ℕ → ℕ → ℝ → List Event
  | _, 0, _ => []
  | c, fuel + 1, angle =>
    (match castFn pos angle with
     | some distance => [Event.col c (jsHeight (distance * Real.cos (angle - dir)) projd)]
     | none => []) ++
    (if dbg then
      [Event.debug angle (match castFn pos angle with
        | none => 100
        | some distance => distance / 10)]
     else []) ++
    renderColumns castFn dbg pos dir projd delta (c + 1) fuel (angle + delta)

/-- Embedding of `render` (src/src/cast.ts:24-53) parameterized by the ray caster and
the debug flag: the projection constants exactly as in the source (`projh = 200`,
`projw = projh * w / h`, `fov = 1`, `projd = (projw / 2) / tan(fov / 2)`,
`delta = fov / w`), then the column loop over all `w` columns starting at column 0
with angle `dir - fov / 2`. The framebuffer is abstracted to its width `w` and height
`h`; the drawing calls are returned as a trace. -/
noncomputable def renderWith (castFn : Position → ℝ → Option ℝ) (dbg : Bool)
    (w h : ℕ) (pos : Position) (dir : ℝ) : List Event :=
  let projh : ℝ := 200
  let projw : ℝ := projh * w / h
  let fov : ℝ := 1
  let projd : ℝ := (projw / 2) / Real.tan (fov / 2)
  let delta : ℝ := fov / w
  renderColumns castFn dbg pos dir projd delta 0 w (dir - fov / 2)

/-- Embedding of `render` (src/src/cast.ts) itself: the column loop with the source's
`cast` and with the debug ray line drawn. -/
noncomputable def render (w h : ℕ) (pos : Position) (dir : ℝ) : List Event :=
  renderWith cast true w h pos dir

/-- Height of the wall column drawn at column `c` in a trace: the height argument of
the first `Event.col` with index `c`, if any. -/
def findCol (c : ℕ) : List Event → Option EReal
  | [] => none
  | Event.col x hgt :: rest => if x = c then some hgt else findCol c rest
  | Event.debug _ _ :: rest => findCol c rest

/-! Helper lemmas. -/

theorem jsAnd255_range (q : ℚ) : 0 ≤ jsAnd255 q ∧ jsAnd255 q ≤ 255 := by
  unfold jsAnd255
  have h1 : 0 ≤ (jsTrunc q).emod 256 := Int.emod_nonneg _ (by norm_num)
  have h2 : (jsTrunc q).emod 256 < 256 := Int.emod_lt_of_pos _ (by norm_num)
  omega

theorem colorRGBA_inRange (r g b a : ℚ) : channelsInRange (colorRGBA r g b a) := by
  have hr := jsAnd255_range r
  have hg := jsAnd255_range g
  have hb := jsAnd255_range b
  have ha := jsAnd255_range a
  exact ⟨hr.1, hr.2, hg.1, hg.2, hb.1, hb.2, ha.1, ha.2⟩

theorem jsTruncR_intCast (z : ℤ) : jsTruncR (z : ℝ) = z := by
  unfold jsTruncR
  split
  · exact Int.floor_intCast z
  · exact Int.ceil_intCast z

theorem bresenham_self (a : ℤ × ℤ) : bresenham a a = [a] := by
  obtain ⟨ax, ay⟩ := a
  simp [bresenham, bresenhamCore, bresLoop]

theorem bresenhamCore_self (ax ay : ℤ) : bresenhamCore (ax, ay) (ax, ay) = [(ax, ay)] := by
  simp [bresenhamCore, bresLoop]

theorem bresLoop_const_minor (su m : ℤ) :
    ∀ (n : ℕ) (u v e : ℤ), e < 0 →
      bresLoop true su 1 0 m n u v e =
        (List.range n).map (fun i : ℕ => (u + su * ((i : ℤ) + 1), v)) := by
  intro n
  induction n with
  | zero => intro u v e _; simp [bresLoop]
  | succ n ih =>
      intro u v e he
      have hne : ¬ (0 ≤ e) := by omega
      simp only [bresLoop, if_neg hne, if_true]
      rw [add_zero, ih (u + su) v e he]
      rw [List.range_succ_eq_map, List.map_cons, List.map_map]
      congr 1
      · simp
      · congr 1
        funext i
        simp only [Function.comp_apply]
        rw [Prod.mk.injEq]
        refine ⟨by push_cast; ring, rfl⟩

theorem bresenhamCore_horiz_mem (ax bx y px py : ℤ) :
    (px, py) ∈ bresenhamCore (ax, y) (bx, y) ↔
      py = y ∧ min ax bx ≤ px ∧ px ≤ max ax bx := by
  unfold bresenhamCore
  simp only [sub_self, mul_zero, zero_sub, neg_neg]
  rcases lt_trichotomy ax bx with hlt | heq | hgt
  · rw [min_eq_left hlt.le, max_eq_right hlt.le]
    rw [if_pos (show bx - ax > 0 by omega), if_pos (show bx - ax > 0 by omega)]
    rw [bresLoop_const_minor 1 (-(2 * (bx - ax))) (bx - ax).toNat ax y (-(bx - ax)) (by omega)]
    simp only [List.mem_cons, List.mem_map, List.mem_range, Prod.mk.injEq]
    constructor
    · rintro (⟨h2, h3⟩ | ⟨i, hi, h2, h3⟩) <;> omega
    · rintro ⟨h2, h3, h4⟩
      by_cases hpx : px = ax
      · exact Or.inl ⟨hpx, h2⟩
      · exact Or.inr ⟨(px - ax - 1).toNat, by omega, by omega, h2.symm⟩
  · subst heq
    simp only [sub_self, neg_zero, mul_zero]
    rw [if_neg (show ¬ ((0 : ℤ) > 0) by omega), if_neg (show ¬ ((0 : ℤ) > 0) by omega)]
    simp only [Int.toNat_zero, bresLoop, List.mem_singleton, Prod.mk.injEq,
      min_self, max_self]
    omega
  · rw [min_eq_right hgt.le, max_eq_left hgt.le]
    rw [if_neg (show ¬ (bx - ax > 0) by omega), if_pos (show -(bx - ax) > 0 by omega)]
    rw [bresLoop_const_minor (-1) (-(2 * -(bx - ax))) (-(bx - ax)).toNat ax y (bx - ax)
      (by omega)]
    simp only [List.mem_cons, List.mem_map, List.mem_range, Prod.mk.injEq]
    constructor
    · rintro (⟨h2, h3⟩ | ⟨i, hi, h2, h3⟩) <;> omega
    · rintro ⟨h2, h3, h4⟩
      by_cases hpx : px = ax
      · exact Or.inl ⟨hpx, h2⟩
      · exact Or.inr ⟨(ax - px - 1).toNat, by omega, by omega, h2.symm⟩

theorem bresenham_horiz_mem (ax bx y px py : ℤ) :
    (px, py) ∈ bresenham (ax, y) (bx, y) ↔
      py = y ∧ min ax bx ≤ px ∧ px ≤ max ax bx := by
  unfold bresenham
  rw [if_neg (lt_irrefl y)]
  exact bresenhamCore_horiz_mem ax bx y px py

/-! Claim theorems. -/

/-- C2 (counterexample): colorRGBA does not clamp — the channel input 300 is greater
than 255, yet the resulting red channel is 44 (that is, 300 mod 256), not 255. -/
theorem colorRGBA_not_clamped :
    (300 : ℚ) > 255 ∧ (colorRGBA 300 0 0 255).r = 44 ∧ (colorRGBA 300 0 0 255).r ≠ 255 := by
  refine ⟨by norm_num, by decide, by decide⟩

/-- C2 (amended): each channel of colorRGBA is its input truncated toward zero and
reduced modulo 256 (the JavaScript `x & 0xff`), hence always an integer in [0, 255];
out-of-range inputs wrap around instead of clamping — input 300 yields channel 44 and
input -1 yields channel 255. -/
theorem colorRGBA_masks_mod256 :
    (∀ r g b a : ℚ,
      channelsInRange (colorRGBA r g b a) ∧
      (colorRGBA r g b a).r = (jsTrunc r).emod 256 ∧
      (colorRGBA r g b a).g = (jsTrunc g).emod 256 ∧
      (colorRGBA r g b a).b = (jsTrunc b).emod 256 ∧
      (colorRGBA r g b a).a = (jsTrunc a).emod 256) ∧
    (colorRGBA 300 0 0 255).r = 44 ∧ (colorRGBA (-1) 0 0 255).r = 255 :=
  ⟨fun r g b a => ⟨colorRGBA_inRange r g b a, rfl, rfl, rfl, rfl⟩, by decide, by decide⟩

/-- C9: drawing a line from an integer point to itself plots exactly one pixel, at the
point itself. -/
theorem bresenham_point_single_pixel (a : ℤ × ℤ) : bresenham a a = [a] :=
  bresenham_self a

/-- C3: for all integer screen points a and b, the set of pixels plotted by the line
from a to b is the same as the set plotted by the line from b to a. When the second
coordinates differ the initial endpoint swap normalizes both calls to the identical
point order; when they are equal both directions plot exactly the horizontal segment
between the two first coordinates. -/
theorem bresenham_reverse_same_pixels (a b p : ℤ × ℤ) :
    p ∈ bresenham a b ↔ p ∈ bresenham b a := by
  obtain ⟨ax, ay⟩ := a
  obtain ⟨bx, by2⟩ := b
  obtain ⟨px, py⟩ := p
  by_cases h : ay = by2
  · subst h
    rw [bresenham_horiz_mem ax bx ay px py, bresenham_horiz_mem bx ax ay px py]
    rw [min_comm, max_comm]
  · have heq : bresenham (ax, ay) (bx, by2) = bresenham (bx, by2) (ax, ay) := by
      unfold bresenham
      rcases lt_or_gt_of_ne h with hlt | hgt
      · rw [if_neg (not_lt.mpr hlt.le), if_pos hlt]
      · rw [if_pos hgt, if_neg (not_lt.mpr hgt.le)]
    rw [heq]

/-- C10: every Color produced by colorRGBA, or by colorHex when it succeeds, has all
four of its (integer) channels in the range [0, 255], for arbitrary rational inputs
(including fractional and out-of-range ones). -/
theorem color_channels_in_range :
    (∀ r g b a : ℚ, channelsInRange (colorRGBA r g b a)) ∧
    (∀ (s : String) (a : ℚ) (c : Color), colorHex s a = Except.ok c → channelsInRange c) := by
  refine ⟨colorRGBA_inRange, fun s a c hc => ?_⟩
  unfold colorHex at hc
  cases hm : hexMatch s.data with
  | none => rw [hm] at hc; exact absurd hc (by simp)
  | some digits =>
      rw [hm] at hc
      have h2 : Except.ok (colorRGBA ((Nat.land (parseHex digits) 0xff0000 >>> 16 : ℕ) : ℚ)
          ((Nat.land (parseHex digits) 0xff00 >>> 8 : ℕ) : ℚ)
          ((Nat.land (parseHex digits) 0xff : ℕ) : ℚ) a) = Except.ok c := hc
      injection h2 with h3
      exact h3 ▸ colorRGBA_inRange _ _ _ _

/-- C10 (witness): concrete instances — channels of colorRGBA on out-of-range and
fractional inputs, and the channels of the successful parse of "#aabbcc". -/
theorem color_channels_in_range_witness :
    channelsInRange (colorRGBA 300 (-1) (7 / 2) 1000) ∧
      channelsInRange (Color.mk 170 187 204 255) :=
  ⟨color_channels_in_range.1 300 (-1) (7 / 2) 1000,
   color_channels_in_range.2 "#aabbcc" 255 (Color.mk 170 187 204 255) (by rfl)⟩

/-- C6: colorHex fails with the invalid-format error exactly on the strings rejected
by the anchored case-insensitive match against `^#([0-9a-f]{6})$` and succeeds on the
strings it accepts; in particular colorHex "#aabbcc" equals
colorRGBA 0xaa 0xbb 0xcc 255 and colorHex "not-a-color" fails. -/
theorem colorHex_spec :
    (∀ (s : String) (a : ℚ), hexMatch s.data = none →
      colorHex s a = Except.error "invalid hex value") ∧
    (∀ (s : String) (a : ℚ), hexMatch s.data ≠ none → isOk (colorHex s a) = true) ∧
    colorHex "#aabbcc" 255 = Except.ok (colorRGBA 0xaa 0xbb 0xcc 255) ∧
    colorHex "not-a-color" 255 = Except.error "invalid hex value" := by
  refine ⟨fun s a h => ?_, fun s a h => ?_, by rfl, by rfl⟩
  · unfold colorHex
    rw [h]
  · unfold colorHex isOk
    cases hm : hexMatch s.data with
    | none => exact absurd hm h
    | some digits => rfl

/-- C6 (witness): a rejected string is an error and an accepted (upper-case) string
succeeds. -/
theorem colorHex_spec_witness :
    colorHex "zzz" 255 = Except.error "invalid hex value" ∧
      isOk (colorHex "#AABBCC" 255) = true :=
  ⟨colorHex_spec.1 "zzz" 255 (by rfl), colorHex_spec.2.1 "#AABBCC" 255 (by decide)⟩

/-- C1: evaluation of the source's cast at the claim's input — the grid traversal of
cast is left as TODO stubs (src/src/cast.ts:71-77) and the function unconditionally
returns Infinity (`none`), so casting from origin (32, 32) at angle 0 does not return
the finite distance 32 with a vertical-side hit that the claim (and the spec's
reconstructed DDA, section 4.1) describes. -/
theorem cast_stub_infinity : cast ⟨32, 32⟩ 0 = none := rfl

/-- C7: the origin/angle/length overload of line plots exactly the pixels of the
two-point overload called with the endpoint origin + (length·cos(angle),
length·sin(angle)) floored to integers, for every integer origin (screen points are
integer pairs), angle and length. -/
theorem line_angle_overload_delegates (ox oy : ℤ) (angle len : ℝ) :
    lineAnglePts ((ox : ℝ), (oy : ℝ)) angle len =
      linePts ((ox : ℝ), (oy : ℝ))
        (((⌊(ox : ℝ) + len * Real.cos angle⌋ : ℤ) : ℝ),
         ((⌊(oy : ℝ) + len * Real.sin angle⌋ : ℤ) : ℝ)) := by
  unfold lineAnglePts linePts
  have hx : ((ox : ℝ) + ((⌊len * Real.cos angle⌋ : ℤ) : ℝ)) =
      (((ox + ⌊len * Real.cos angle⌋ : ℤ) : ℝ)) := by push_cast; ring
  have hy : ((oy : ℝ) + ((⌊len * Real.sin angle⌋ : ℤ) : ℝ)) =
      (((oy + ⌊len * Real.sin angle⌋ : ℤ) : ℝ)) := by push_cast; ring
  simp only [hx, hy, jsTruncR_intCast, Int.floor_int_add]

/-! Trace lemmas for the renderer. -/

theorem findCol_renderColumns_lt (castFn : Position → ℝ → Option ℝ) (dbg : Bool)
    (pos : Position) (dir projd delta : ℝ) :
    ∀ (fuel c0 c : ℕ) (angle : ℝ), c < c0 →
      findCol c (renderColumns castFn dbg pos dir projd delta c0 fuel angle) = none := by
  intro fuel
  induction fuel with
  | zero => intro c0 c angle _; simp [renderColumns, findCol]
  | succ n ih =>
      intro c0 c angle hc
      have hne : ¬ (c0 = c) := by omega
      have hrec := ih (c0 + 1) c (angle + delta) (by omega)
      cases hcast : castFn pos angle with
      | none => cases dbg <;> simp [renderColumns, hcast, findCol, hne, hrec]
      | some d => cases dbg <;> simp [renderColumns, hcast, findCol, hne, hrec]

theorem findCol_renderColumns (castFn : Position → ℝ → Option ℝ) (dbg : Bool)
    (pos : Position) (dir projd delta : ℝ) :
    ∀ (fuel c0 k : ℕ) (angle : ℝ), k < fuel →
      findCol (c0 + k) (renderColumns castFn dbg pos dir projd delta c0 fuel angle) =
        Option.map (fun d => jsHeight (d * Real.cos ((angle + k * delta) - dir)) projd)
          (castFn pos (angle + k * delta)) := by
  intro fuel
  induction fuel with
  | zero => intro c0 k angle hk; exact absurd hk (by omega)
  | succ n ih =>
      intro c0 k angle hk
      cases k with
      | zero =>
          have ha : angle + ((0 : ℕ) : ℝ) * delta = angle := by
            push_cast
            ring
          rw [ha]
          have hlt := findCol_renderColumns_lt castFn dbg pos dir projd delta n (c0 + 1) c0
            (angle + delta) (by omega)
          cases hcast : castFn pos angle with
          | none => cases dbg <;> simp [renderColumns, hcast, findCol, hlt]
          | some d => cases dbg <;> simp [renderColumns, hcast, findCol]
      | succ k2 =>
          have hne : ¬ (c0 = c0 + (k2 + 1)) := by omega
          have hrec := ih (c0 + 1) k2 (angle + delta) (by omega)
          have hidx : c0 + 1 + k2 = c0 + (k2 + 1) := by omega
          have hang : angle + delta + (k2 : ℝ) * delta = angle + (((k2 + 1 : ℕ)) : ℝ) * delta := by
            push_cast
            ring
          rw [hidx, hang] at hrec
          cases hcast : castFn pos angle with
          | none => cases dbg <;> simp [renderColumns, hcast, findCol, hne, hrec]
          | some d => cases dbg <;> simp [renderColumns, hcast, findCol, hne, hrec]

theorem filter_isCol_renderColumns (castFn : Position → ℝ → Option ℝ)
    (pos : Position) (dir projd delta : ℝ) :
    ∀ (fuel c0 : ℕ) (angle : ℝ),
      (renderColumns castFn true pos dir projd delta c0 fuel angle).filter Event.isCol =
        (renderColumns castFn false pos dir projd delta c0 fuel angle).filter Event.isCol := by
  intro fuel
  induction fuel with
  | zero => intro c0 angle; rfl
  | succ n ih =>
      intro c0 angle
      cases hcast : castFn pos angle with
      | none =>
          simp [renderColumns, hcast, List.filter_append, Event.isCol,
            ih (c0 + 1) (angle + delta)]
      | some d =>
          simp [renderColumns, hcast, List.filter_append, Event.isCol,
            ih (c0 + 1) (angle + delta)]

/-- C8: the debug ray lines drawn by render (one per cast ray, from the fixed anchor
point) do not affect the main column output — for every ray caster, framebuffer size,
position and direction, the wall-column drawing calls of the column loop are the same
with and without the debug lines. render itself is `renderWith cast true`. -/
theorem render_debug_no_effect_on_columns (castFn : Position → ℝ → Option ℝ)
    (w h : ℕ) (pos : Position) (dir : ℝ) :
    (renderWith castFn true w h pos dir).filter Event.isCol =
      (renderWith castFn false w h pos dir).filter Event.isCol := by
  simp only [renderWith]
  exact filter_isCol_renderColumns castFn pos dir _ _ w 0 _

/-- C4: for every screen column c in [0, w) whose ray hits a wall at finite distance
d (with a nonzero fisheye-corrected distance, so the quotient is defined), the column
loop of render draws that column with pixel height
64 / (d · cos(rayAngle - dir)) · planeDistance, where
rayAngle = dir - fov/2 + c·(fov/w), fov = 1, and
planeDistance = (planeWidth/2) / tan(fov/2) with planeWidth = 200·w/h. The source's
cast is a stub that never hits, so the loop is stated over an arbitrary ray caster
castFn; render is `renderWith cast true`. -/
theorem render_column_height_formula (castFn : Position → ℝ → Option ℝ) (dbg : Bool)
    (w h : ℕ) (pos : Position) (dir : ℝ) (c : ℕ) (d : ℝ)
    (hc : c < w)
    (hcast : castFn pos (dir - 1 / 2 + (c : ℝ) * (1 / (w : ℝ))) = some d)
    (hne : d * Real.cos (dir - 1 / 2 + (c : ℝ) * (1 / (w : ℝ)) - dir) ≠ 0) :
    findCol c (renderWith castFn dbg w h pos dir) =
      some (((64 / (d * Real.cos (dir - 1 / 2 + (c : ℝ) * (1 / (w : ℝ)) - dir)) *
        ((200 * (w : ℝ) / (h : ℝ) / 2) / Real.tan (1 / 2)) : ℝ) : EReal)) := by
  have key := findCol_renderColumns castFn dbg pos dir
    ((200 * (w : ℝ) / (h : ℝ) / 2) / Real.tan (1 / 2)) (1 / (w : ℝ)) w 0 c
    (dir - 1 / 2) hc
  rw [Nat.zero_add, hcast] at key
  simp only [renderWith]
  rw [key]
  show some (jsHeight (d * Real.cos (dir - 1 / 2 + (c : ℝ) * (1 / (w : ℝ)) - dir))
    ((200 * (w : ℝ) / (h : ℝ) / 2) / Real.tan (1 / 2))) = _
  unfold jsHeight
  rw [if_neg hne]

/-- C4 (witness): a one-column framebuffer with a caster reporting distance 64 — the
drawn column height is the projection formula at that input. -/
theorem render_column_height_formula_witness :
    findCol 0 (renderWith (fun _ _ => some 64) true 1 1 ⟨0, 0⟩ 0) =
      some (((64 / (64 * Real.cos (0 - 1 / 2 + ((0 : ℕ) : ℝ) * (1 / ((1 : ℕ) : ℝ)) - 0)) *
        ((200 * ((1 : ℕ) : ℝ) / ((1 : ℕ) : ℝ) / 2) / Real.tan (1 / 2)) : ℝ) : EReal)) := by
  refine render_column_height_formula (fun _ _ => some 64) true 1 1 ⟨0, 0⟩ 0 0 64
    (by norm_num) rfl ?_
  have harg : (0 : ℝ) - 1 / 2 + ((0 : ℕ) : ℝ) * (1 / ((1 : ℕ) : ℝ)) - 0 = -(1 / 2) := by
    push_cast
    ring
  rw [harg, Real.cos_neg]
  have hpi := Real.pi_gt_three
  have hcos : 0 < Real.cos (1 / 2 : ℝ) :=
    Real.cos_pos_of_mem_Ioo ⟨by linarith, by linarith⟩
  exact mul_ne_zero (by norm_num) (ne_of_gt hcos)

/-- C5: when the fisheye-corrected distance of a hit column is exactly zero, the
division `64 / corrected` is the well-defined JavaScript value +Infinity (⊤), so the
column is drawn with height +Infinity, and the clamp of `column` reduces that height
to the framebuffer height — the column is treated as maximum height. Stated over an
arbitrary ray caster castFn, since the source's cast is a stub; render is
`renderWith cast true`. -/
theorem render_zero_distance_clamped (castFn : Position → ℝ → Option ℝ) (dbg : Bool)
    (w fbh : ℕ) (pos : Position) (dir : ℝ) (c : ℕ) (d : ℝ)
    (hc : c < w)
    (hcast : castFn pos (dir - 1 / 2 + (c : ℝ) * (1 / (w : ℝ))) = some d)
    (hzero : d * Real.cos (dir - 1 / 2 + (c : ℝ) * (1 / (w : ℝ)) - dir) = 0) :
    findCol c (renderWith castFn dbg w fbh pos dir) = some ⊤ ∧
      columnClamp fbh ⊤ = ((fbh : ℝ) : EReal) := by
  constructor
  · have key := findCol_renderColumns castFn dbg pos dir
      ((200 * (w : ℝ) / (fbh : ℝ) / 2) / Real.tan (1 / 2)) (1 / (w : ℝ)) w 0 c
      (dir - 1 / 2) hc
    rw [Nat.zero_add, hcast] at key
    simp only [renderWith]
    rw [key]
    show some (jsHeight (d * Real.cos (dir - 1 / 2 + (c : ℝ) * (1 / (w : ℝ)) - dir))
      ((200 * (w : ℝ) / (fbh : ℝ) / 2) / Real.tan (1 / 2))) = _
    unfold jsHeight
    rw [if_pos hzero]
  · unfold columnClamp
    rw [if_pos (EReal.coe_lt_top _)]

/-- C5 (witness): a caster reporting distance 0 — the drawn height is +Infinity and
the column clamp reduces it to the framebuffer height 2. -/
theorem render_zero_distance_clamped_witness :
    findCol 0 (renderWith (fun _ _ => some 0) true 1 2 ⟨0, 0⟩ 0) = some ⊤ ∧
      columnClamp 2 ⊤ = (((2 : ℕ) : ℝ) : EReal) :=
  render_zero_distance_clamped (fun _ _ => some 0) true 1 2 ⟨0, 0⟩ 0 0 0
    (by norm_num) rfl (by rw [zero_mul])

end Rayts
